import Mathlib

/-!
# Verification of the TorchToTosa legalization layer

Shallow embedding of the shape/type-level behaviour of
`lib/Conversion/TorchToTosa/TorchToTosa.cpp` together with proofs of the
spec's claims about it.

Conventions:
* Tensor shapes are "torch compatible" lists of `Int`, where a statically
  unknown (dynamic) dimension is the sentinel `kUnknownSize = -1`
  (`makeShapeTorchCompatible` / `BaseTensorType::kUnknownSize` in the
  repository; the spec describes a shape as a list of sizes, each either a
  non-negative integer or "unknown").
* Element types are abstracted to float-of-width / signed-integer-of-width /
  other, which is all the legalizers inspect.
* A legalizer is a function returning `Except String β`: `.error` models
  `notifyMatchFailure` / `emitError` (a typed failure that leaves the graph
  untouched), `.ok` carries the shape/type content of the replacement
  subgraph.
-/

/-- `BaseTensorType::kUnknownSize`: the torch-compatible sentinel for a
dynamic dimension. -/
def kUnknownSize : Int := -1

/-- Modelled from the spec: `ShapedType::isDynamic` applied to a
torch-compatible dimension size (the MLIR helpers are outside the provided
source); a dimension is dynamic exactly when it is the unknown sentinel. -/
def isDynamicDim (d : Int) : Bool := d == kUnknownSize

/-- An MLIR element type as far as the legalizers inspect it:
`mlir::FloatType` of some width, `mlir::IntegerType` of some width, or
anything else. -/
inductive MlirType where
  | float (w : Nat)
  | int (w : Nat)
  | other
  deriving Repr, DecidableEq

/-- `Type::isa<mlir::FloatType>()`. -/
def MlirType.isFloatTy : MlirType → Bool
  | .float _ => true
  | _ => false

/-- `Type::isIntOrFloat()`. -/
def MlirType.isIntOrFloat : MlirType → Bool
  | .float _ => true
  | .int _ => true
  | .other => false

/-- A compile-time scalar operand as seen through
`m_TorchConstantFloat` / `m_TorchConstantInt` pattern matching. -/
inductive TorchScalar where
  | floatConst (v : ℚ)
  | intConst (v : Int)
  | nonConst
  deriving Repr, DecidableEq

/-- A constant tensor produced by `tosa::getConstTensor` in
`torchScalarToTosaTensor`: a float splat, an `int32_t` splat or an
`int64_t` splat. -/
inductive TosaConstTensor where
  | floatT (v : ℚ)
  | int32T (v : Int)
  | int64T (v : Int)
  deriving Repr, DecidableEq

/-- `std::numeric_limits<T>::min()` for a signed `w`-bit integer type. -/
def intMinOfWidth (w : Nat) : Int := -(2 ^ (w - 1))

/-- `std::numeric_limits<T>::max()` for a signed `w`-bit integer type. -/
def intMaxOfWidth (w : Nat) : Int := 2 ^ (w - 1) - 1

/-- Truncation of a rational toward zero, the value component of a C++
`static_cast` from `double` to a signed integer type. -/
def ratTrunc (q : ℚ) : Int := q.num.tdiv q.den

/-- Round `a / 2 ^ e` to the nearest even integer and scale back up: the
mantissa-rounding step of converting a wide integer to a `double`.
Only meaningful for `1 ≤ e`. -/
def roundNearestEvenScaled (a : Nat) (e : Nat) : Nat :=
  let q := a / 2 ^ e
  let r := a % 2 ^ e
  let half := 2 ^ e / 2
  let qr := if half < r then q + 1 else if r == half && q % 2 == 1 then q + 1 else q
  qr * 2 ^ e

/-- Modelled from the spec: the exact rational value of the IEEE-754 binary64
number nearest to the integer `n` (round to nearest, ties to even; `int64`
magnitudes are far below the binary64 overflow threshold, so no overflow
handling is needed).  Integers of magnitude at most `2 ^ 53` are exactly
representable. -/
def doubleOfInt (n : Int) : ℚ :=
  let a := n.natAbs
  if a ≤ 2 ^ 53 then (n : ℚ)
  else
    let e := a.log2 + 1 - 53
    let m := roundNearestEvenScaled a e
    if n < 0 then -(m : ℚ) else (m : ℚ)

/-- Modelled from the spec: C++ `static_cast` from `double` to a signed
integer type with range `[lo, hi]` truncates toward zero; for out-of-range
values the behaviour is undefined and is modelled as the platform-typical
sentinel `lo`. -/
def castDoubleToInt (lo hi : Int) (v : ℚ) : Int :=
  let t := ratTrunc v
  if lo ≤ t ∧ t ≤ hi then t else lo

/-- Two's-complement wrap-around of an integer to width `w`: the value of a
C++ integer-to-narrower-integer conversion. -/
def castIntWrap (w : Nat) (v : Int) : Int :=
  (v + 2 ^ (w - 1)) % 2 ^ w - 2 ^ (w - 1)

/-- `isInValidRange<T>` with `T`'s range `[lo, hi]`: a float value passes iff
casting it to `T` and back to `double` reproduces it exactly; an integer
value passes iff it lies within `T`'s range. -/
def isInValidRange (lo hi : Int) (isFloat : Bool) (doubleValue : ℚ)
    (intValue : Int) : Bool :=
  if isFloat then doubleValue == doubleOfInt (castDoubleToInt lo hi doubleValue)
  else decide (lo ≤ intValue) && decide (intValue ≤ hi)

/-- Body of `torchScalarToTosaTensor` once the scalar has been pattern-matched
into `(isFloat, doubleValue, intValue)`. -/
def torchScalarToTosaTensorAux (isFloat : Bool) (doubleValue : ℚ) (intValue : Int)
    (dtype : MlirType) : Except String TosaConstTensor :=
  match dtype with
  | .float _ => .ok (.floatT (if isFloat then doubleValue else (intValue : ℚ)))
  | .int w =>
    if w ≠ 32 ∧ w ≠ 64 then .error "Unsupported integer type"
    else if w = 32 then
      if ¬ isInValidRange (intMinOfWidth 32) (intMaxOfWidth 32) isFloat doubleValue intValue
      then .error "Supplied value of scalar constant exceeds limits of destination type"
      else
        let d := if isFloat then castDoubleToInt (intMinOfWidth 32) (intMaxOfWidth 32) doubleValue
                 else castIntWrap 32 intValue
        .ok (.int32T d)
    else
      if ¬ isInValidRange (intMinOfWidth 64) (intMaxOfWidth 64) isFloat doubleValue intValue
      then .error "Supplied value of scalar constant exceeds limits of destination type"
      else
        let d := if isFloat then castDoubleToInt (intMinOfWidth 64) (intMaxOfWidth 64) doubleValue
                 else intValue
        .ok (.int64T d)
  | .other => .error "Usupported element type"

/-- `torchScalarToTosaTensor`: lift a compile-time scalar constant to a TOSA
constant tensor of element type `dtype`, with round-trip range checking. -/
def torchScalarToTosaTensor (torchScalarValue : TorchScalar) (dtype : MlirType) :
    Except String TosaConstTensor :=
  match torchScalarValue with
  | .floatConst dv => torchScalarToTosaTensorAux true dv 0 dtype
  | .intConst iv => torchScalarToTosaTensorAux false 0 iv dtype
  | .nonConst => .error "Unable to extract the scalar constant"

/-! ## Squeeze legalizations -/

/-- Loop body of `ConvertAtenSqueezeOneDimOp::generateSqueezedShape`: keep a
dimension unless it is statically `1` and its index equals the (normalized)
requested dim. -/
def generateSqueezedShapeOneDimAux (squeezeDim : Int) : Int → List Int → List Int
  | _, [] => []
  | dimNum, dim :: rest =>
    if dim ≠ 1 ∨ squeezeDim ≠ dimNum then
      dim :: generateSqueezedShapeOneDimAux squeezeDim (dimNum + 1) rest
    else generateSqueezedShapeOneDimAux squeezeDim (dimNum + 1) rest

/-- `ConvertAtenSqueezeOneDimOp::generateSqueezedShape`: requires a constant
dim, normalizes a negative dim, and removes only a statically-known size-1
dimension at that index. -/
def generateSqueezedShapeOneDim (selfShape : List Int) (dimConst : Option Int) :
    Except String (List Int) :=
  match dimConst with
  | none => .error "non-const dim parameter unsupported"
  | some squeezeDimIn =>
    let squeezeDim := if squeezeDimIn < 0 then squeezeDimIn + selfShape.length else squeezeDimIn
    .ok (generateSqueezedShapeOneDimAux squeezeDim 0 selfShape)

/-- `ConvertAtenSqueezeAllDimsOp::generateSqueezedShape`: keep every dimension
that is not statically known to equal 1. -/
def generateSqueezedShapeAllDims (selfShape : List Int) : List Int :=
  selfShape.filter (fun dim => dim ≠ 1)

/-! ## Argmax legalization -/

/-- A target-ISA node emitted by a legalizer, as far as the claims inspect
it: shapes, reduction attribute and result element width. -/
inductive EmittedOp where
  | tosaArgMax (inShape : List Int) (reduceDim : Int) (outShape : List Int)
  | arithExtSI (outShape : List Int) (toWidth : Nat)
  | tosaCast (outShape : List Int)
  deriving Repr, DecidableEq

/-- Loop of `buildArgmax` computing the reduced output shape: drop the
dimension whose index equals `reduceDim` (keeping a 1 when `keepDim`). -/
def argmaxOutputShapeAux (keepDim : Bool) (reduceDim : Int) : Int → List Int → List Int
  | _, [] => []
  | i, dim :: rest =>
    if i ≠ reduceDim then dim :: argmaxOutputShapeAux keepDim reduceDim (i + 1) rest
    else (if keepDim then [1] else []) ++ argmaxOutputShapeAux keepDim reduceDim (i + 1) rest

/-- Output shape of one `tosa.argmax` as computed by `buildArgmax`. -/
def buildArgmaxShape (keepDim : Bool) (reduceDim : Int) (inputShape : List Int) : List Int :=
  argmaxOutputShapeAux keepDim reduceDim 0 inputShape

/-- The all-dims loop of `ConvertAtenOp<AtenArgmaxOp>::matchAndRewrite`:
`r` chained `buildArgmax(0, ·)` invocations, each reducing dimension 0 of the
previous result; returns the emitted ops and the final shape. -/
def argmaxChain (keepDim : Bool) : Nat → List Int → List EmittedOp × List Int
  | 0, s => ([], s)
  | r + 1, s =>
    let s2 := buildArgmaxShape keepDim 0 s
    let rest := argmaxChain keepDim r s2
    (.tosaArgMax s 0 s2 :: rest.1, rest.2)

/-- `ConvertAtenOp<AtenArgmaxOp>::matchAndRewrite`: requires constant
`keepdim`; a non-constant (None) `dim` means reduce over all dims, emitting
one chained argmax per rank and finally an `arith.extsi` to the `outW`-bit
result type (TOSA argmax produces i32 and `tosa.cast` does not support i64). -/
def convertAtenArgmax (selfShape : List Int) (dimConst : Option Int)
    (keepdimConst : Option Bool) (outW : Nat) :
    Except String (List EmittedOp × List Int) :=
  match keepdimConst with
  | none => .error "non-const keepdim parameter unsupported"
  | some keepDim =>
    let reduceDim : Int := match dimConst with | none => -1 | some d => d
    if reduceDim = -1 then
      let chain := argmaxChain keepDim selfShape.length selfShape
      .ok (chain.1 ++ [.arithExtSI chain.2 outW], chain.2)
    else
      let outShape := buildArgmaxShape keepDim reduceDim selfShape
      .ok ([.tosaArgMax selfShape reduceDim outShape, .arithExtSI outShape outW], outShape)

/-! ## Alpha-scaled add/subtract legalization -/

/-- The right-hand operand of an add/sub: a tensor with an element type, or a
scalar constant. -/
inductive AddSubRhs where
  | tensor (elemTy : MlirType)
  | scalar (s : TorchScalar)
  deriving Repr, DecidableEq

/-- Type-level summary of the subgraph emitted by
`ConvertAtenAddSubOp::matchAndRewrite`. -/
structure AddSubEmission where
  /-- Element type of the `tosa.mul` computing `alpha * rhs`. -/
  mulElemTy : MlirType
  /-- Element type at which the add/sub itself is computed. -/
  opElemTy : MlirType
  /-- Cast emitted after the add/sub (only in the 64-bit integer case). -/
  finalCastTo : Option MlirType
  deriving Repr, DecidableEq

/-- `torchAlphaToTosaTensor` (with `checkForUnity = false`): try the full
scalar lift at `dtype`; otherwise fall back to an f32 constant for a constant
integer alpha. Returns the element type of the alpha tensor. -/
def torchAlphaToTosaTensor (alphaScalar : TorchScalar) (dtype : MlirType) :
    Except String MlirType :=
  match torchScalarToTosaTensor alphaScalar dtype with
  | .ok _ => .ok dtype
  | .error _ =>
    match alphaScalar with
    | .intConst _ => .ok (.float 32)
    | _ => .error "Currently only scalar constants are supported for alpha in TOSA operation"

/-- `ConvertAtenAddSubOp::matchAndRewrite` at the type level: determine the
element type of the alpha multiply, of the add/sub itself, and the final
widening cast, failing exactly where the source fails. -/
def convertAtenAddSub (lhsTy : Option MlirType) (rhs : AddSubRhs)
    (alpha : TorchScalar) (outElemTy : MlirType) : Except String AddSubEmission :=
  match lhsTy with
  | none => .error "Only Tensor types supported in TOSA"
  | some lhsElemTy =>
    if (match lhsElemTy with | .int w => 64 < w | _ => false : Bool) then
      .error "Integers with widths greater than 64 are not supported"
    else if ¬ outElemTy.isIntOrFloat then
      .error "Only floating-point or integer datatype legalization supported"
    else
      let rhsAlphaMulElemType := if outElemTy.isFloatTy then outElemTy else .int 32
      let rhsOk : Except String Unit :=
        match rhs with
        | .tensor _ => .ok ()
        | .scalar s =>
          match torchScalarToTosaTensor s rhsAlphaMulElemType with
          | .ok _ => .ok ()
          | .error _ =>
            .error "Currently only scalar constants are supported for conversion in TOSA operation"
      match rhsOk with
      | .error e => .error e
      | .ok _ =>
        match torchAlphaToTosaTensor alpha rhsAlphaMulElemType with
        | .error _ =>
          .error "Currently only scalar constants are supported for alpha in conversion to TOSA operation"
        | .ok _ =>
          if outElemTy.isFloatTy ∨ outElemTy = .int 32 then
            .ok ⟨rhsAlphaMulElemType, outElemTy, none⟩
          else if outElemTy = .int 64 then
            .ok ⟨rhsAlphaMulElemType, .int 32, some (.int 64)⟩
          else .error "Only floating-point, i32, i64 datatype legalization supported"

/-! ## Comparison legalization -/

/-- The comparison source operators handled by `ConvertAtenCompareOp`. -/
inductive AtenCompareKind where
  | gtTensor | gtScalar | ltTensor | ltScalar
  | eqTensor | eqScalar | neTensor | neScalar
  deriving Repr, DecidableEq

/-- The TOSA comparison primitives. -/
inductive TosaCompareOp where
  | greaterOp | equalOp
  deriving Repr, DecidableEq

/-- The `TosaOpT` each comparison pattern is instantiated with
(`INSERT_BINARY_COMPARE_PATTERN` registrations). -/
def tosaOpForCompare : AtenCompareKind → TosaCompareOp
  | .gtTensor => .greaterOp
  | .gtScalar => .greaterOp
  | .ltTensor => .greaterOp
  | .ltScalar => .greaterOp
  | .eqTensor => .equalOp
  | .eqScalar => .equalOp
  | .neTensor => .equalOp
  | .neScalar => .equalOp

/-- `swapLhsRhs` in `ConvertAtenCompareOp::matchAndRewrite`: there is no
Lesser operator in TOSA, so less-than swaps its operands. -/
def compareSwapLhsRhs (k : AtenCompareKind) : Bool :=
  k = .ltTensor ∨ k = .ltScalar

/-- Whether a `tosa.logical_not` is appended: there is no NE operator in TOSA. -/
def compareAppliesNot (k : AtenCompareKind) : Bool :=
  k = .neTensor ∨ k = .neScalar

/-- Elementwise value semantics of the TOSA comparison primitives. -/
def evalTosaCompare : TosaCompareOp → Int → Int → Bool
  | .greaterOp, a, b => a > b
  | .equalOp, a, b => a == b

/-- Elementwise value computed by the subgraph that
`ConvertAtenCompareOp::matchAndRewrite` emits for comparison kind `k`. -/
def compareLegalizedEval (k : AtenCompareKind) (lhs rhs : Int) : Bool :=
  let result := evalTosaCompare (tosaOpForCompare k)
      (if compareSwapLhsRhs k then rhs else lhs)
      (if compareSwapLhsRhs k then lhs else rhs)
  if compareAppliesNot k then !result else result

/-! ## Reshape / view / flatten legalizations -/

/-- `ConvertAtenOp<AtenReshapeOp>::matchAndRewrite`: requires a ranked input
and a fully constant target shape, and permits at most one `-1` entry. -/
def convertAtenReshape (selfRanked : Bool) (shapeConst : Option (List Int)) :
    Except String (List Int) :=
  if ¬ selfRanked then .error "Only ranked tensor types supported in TOSA Reshape"
  else
    match shapeConst with
    | none => .error "Only constant shape supported in TOSA Reshape"
    | some newShape =>
      let auto_sz := (newShape.map (fun s => if s = -1 then (1 : Nat) else 0)).sum
      if 1 < auto_sz then
        .error "At most one dimension may be specified as -1 to automatically calculate its size"
      else .ok newShape

/-- `ConvertAtenOp<AtenViewOp>::matchAndRewrite`: requires a tensor input of
int-or-float element type and a fully constant size list; the constant list
is passed straight to `tosa.reshape`. -/
def convertAtenView (selfIsTensor : Bool) (selfElemTy : MlirType)
    (sizeConst : Option (List Int)) : Except String (List Int) :=
  if ¬ selfIsTensor then .error "Only tensor types are currently supported"
  else if ¬ selfElemTy.isIntOrFloat then
    .error "Only floating-point or integer datatype legalization supported"
  else
    match sizeConst with
    | none => .error "size must consist of Scalar constants"
    | some outShape => .ok outShape

/-- `toPositiveDim` (modelled from the spec's canonical positive-dimension
conversion, the helper lives outside the provided source): negative dims are
offset by the rank. -/
def toPositiveDim (dim inputRank : Int) : Int :=
  if dim < 0 then dim + inputRank else dim

/-- `isValidDim` (modelled from the spec's dimension-validity check):
`0 ≤ dim < rank`. -/
def isValidDim (dim inputRank : Int) : Bool :=
  0 ≤ dim && dim < inputRank

/-- Shape-merging loop of `ConvertAtenOp<AtenFlattenUsingIntsOp>`: dims
outside `[start_dim, end_dim]` are kept, the dims inside are multiplied into
one; built with an accumulator mirroring `push_back` / `back() *=`. -/
def flattenNewShape (start_dim end_dim : Int) (shape : List Int) : List Int :=
  (shape.foldl
    (fun (acc : List Int × Int) s =>
      let idx := acc.2
      let cur := acc.1
      if idx < start_dim ∨ end_dim < idx then (s :: cur, idx + 1)
      else if idx = start_dim then (s :: cur, idx + 1)
      else
        match cur with
        | h :: t => (h * s :: t, idx + 1)
        | [] => ([], idx + 1)
    ) ([], 0)).1.reverse

/-- `ConvertAtenOp<AtenFlattenUsingIntsOp>::matchAndRewrite`: requires a
ranked, statically shaped input and constant `start_dim` / `end_dim`; there
is no target-shape list operand at all. -/
def convertAtenFlatten (selfTy : Option (List Int)) (startDimConst endDimConst : Option Int) :
    Except String (List Int) :=
  match selfTy with
  | none => .error "Only ranked tensor types with static shapes are currently supported"
  | some selfShape =>
    if ¬ (selfShape.all (fun d => ¬ isDynamicDim d)) then
      .error "Only ranked tensor types with static shapes are currently supported"
    else
      let selfRank : Int := selfShape.length
      match startDimConst, endDimConst with
      | none, _ => .error "start_dim must be a Scalar constant"
      | some _, none => .error "end_dim must be a Scalar constant"
      | some start_dim0, some end_dim0 =>
        let start_dim := toPositiveDim start_dim0 selfRank
        let end_dim := toPositiveDim end_dim0 selfRank
        if 0 < selfRank ∧ ¬ isValidDim start_dim selfRank then
          .error "start_dim is statically invalid"
        else if 0 < selfRank ∧ ¬ isValidDim end_dim selfRank then
          .error "end_dim is statically invalid"
        else if end_dim < start_dim then
          .error "end_dim must be larger than start_dim"
        else
          let newShape := flattenNewShape start_dim end_dim selfShape
          .ok (if newShape = [] then [1] else newShape)

/-! ## Broadcast-to legalization -/

/-- Result of `ConvertAtenOp<AtenBroadcastToOp>`: on success the op's result
is aliased to its input Value (`replaceAllUsesWith(op.getSelf())`) and the op
erased; no target node is created. -/
structure BroadcastToResult where
  aliasedToInput : Bool
  emittedOps : List EmittedOp
  deriving Repr, DecidableEq

/-- `ConvertAtenOp<AtenBroadcastToOp>::matchAndRewrite`: static input shape
and constant size list required; only the same-rank (or zero-ranked input)
case is implemented, and a shape-changing broadcast is rejected when any
consumer of the result is a view-like op. -/
def convertAtenBroadcastTo (selfTy : Option (List Int)) (selfElemTy : MlirType)
    (sizeConst : Option (List Int)) (hasViewLikeUser : Bool) :
    Except String BroadcastToResult :=
  match selfTy with
  | none => .error "Only tensor types with static shape are supported"
  | some inputShape =>
    if ¬ (inputShape.all (fun d => ¬ isDynamicDim d)) then
      .error "Only tensor types with static shape are supported"
    else if ¬ selfElemTy.isIntOrFloat then
      .error "Only floating-point or integer datatype legalization supported"
    else
      match sizeConst with
      | none => .error "size must consist of Scalar constants"
      | some outShape =>
        if inputShape.length = outShape.length ∨ inputShape.length = 0 then
          if inputShape ≠ outShape ∧ hasViewLikeUser then
            .error "unimplemented: broadcast not supported for this case"
          else .ok ⟨true, []⟩
        else .error "unimplemented: broadcasts other than same rank or zero ranked tensor."

/-! ## Embedding legalization -/

/-- Operands and constant attributes of an `aten.embedding`, as inspected by
its legalizer. -/
structure EmbeddingArgs where
  /-- `indices`: `none` when not a ranked tensor, otherwise shape and element type. -/
  indicesTy : Option (List Int × MlirType)
  weightShape : List Int
  outShape : List Int
  paddingIdx : Option Int
  scaleGradByFreq : Option Bool
  sparse : Option Bool
  deriving Repr, DecidableEq

/-- Shapes of the tensors produced by the gather-based embedding subgraph:
reshaped weight, flattened indices, cast indices, gather result, final
reshape. -/
structure EmbeddingEmission where
  reshapedWeightShape : List Int
  reshapedIndicesShape : List Int
  gatherShape : List Int
  finalShape : List Int
  deriving Repr, DecidableEq

/-- `ConvertAtenOp<AtenEmbeddingOp>::matchAndRewrite`: integer index tensor of
rank exactly 2 and weight of rank exactly 2 required; inference path only.
The algorithm reshapes the weight to `1 × num × dim`, flattens the indices to
`1 × N`, casts them to i32, gathers and reshapes back. -/
def convertAtenEmbedding (a : EmbeddingArgs) : Except String EmbeddingEmission :=
  match a.indicesTy with
  | none => .error "Indices must be of integer tensor type"
  | some (indicesShape, indicesElemTy) =>
    if (match indicesElemTy with | .int _ => false | _ => true : Bool) then
      .error "Indices must be of integer tensor type"
    else if indicesShape.length ≠ 2 then .error "indices must be of rank 2"
    else if a.weightShape.length ≠ 2 then .error "weight must be of rank 2"
    else
      match a.paddingIdx, a.scaleGradByFreq, a.sparse with
      | none, _, _ => .error "only supports constant int padding_idx for embedding op"
      | some _, none, _ => .error "only supports constant bool scale_grad_by_freq for embedding op"
      | some _, some true, _ =>
        .error "only supports scale_grad_by_freq equals to False for embedding op"
      | some _, some false, none => .error "only supports constant bool sparse for embedding op"
      | some _, some false, some true => .error "only support sparse equals to False for embedding op"
      | some _, some false, some false =>
        let newWeightShape := 1 :: a.weightShape
        let numIndices : Int :=
          if indicesShape.all (fun d => ¬ isDynamicDim d) then
            indicesShape.foldl (· * ·) 1
          else kUnknownSize
        let newIndicesShape := [1, numIndices]
        let intermediateOutShape := [1, numIndices, a.weightShape.getD 1 0]
        .ok ⟨newWeightShape, newIndicesShape, intermediateOutShape, a.outShape⟩

/-! ## Matmul legalization (`ConvertAtenMatmulBaseOp::performMatmul`)

Only the shape content of the emitted subgraph is modelled: the shapes of the
two rank-3 operands fed to `tosa.matmul` and the static shape of the final
output value of the replacement subgraph. -/

/-- `getRankBroadcastedShape` inside `performMatmul`: prepend size-1 dims up
to `maxInputRank`; a rank-1 RHS that needs broadcasting is instead laid out
as `[1, ..., 1, K, 1]` (synthetic transpose for dot-product shape). -/
def getRankBroadcastedShape (maxInputRank : Nat) (isRHS : Bool) (shape : List Int) :
    List Int :=
  let bcastDims := maxInputRank - shape.length
  match shape, isRHS, bcastDims with
  | [s], true, k + 1 => List.replicate k 1 ++ [s, 1]
  | _, _, _ => List.replicate bcastDims 1 ++ shape

/-- `reshapeUpTo3DTensor` at the shape level: dim-1 reshape a rank `≤ 3`
shape up to rank 3. -/
def reshapeUpTo3DShape : List Int → List Int
  | [a, b, c] => [a, b, c]
  | [a, b] => [1, a, b]
  | [a] => [1, 1, a]
  | _ => [1, 1, 1]

/-- The common-dimension loop of the batch-broadcast path: batch dims where
the LHS dim is dynamic or both sides agree, tagged with their dim index. -/
def commonElemsAux : Nat → List Int → List Int → List (Nat × Int)
  | i, a :: as, b :: bs =>
    if isDynamicDim a || a == b then (i, a) :: commonElemsAux (i + 1) as bs
    else commonElemsAux (i + 1) as bs
  | _, _, _ => []

/-- The LHS-squeezed loop: static batch dims where the two sides differ,
with the LHS size. -/
def lhsSqueezedBatchAux : Nat → List Int → List Int → List (Nat × Int)
  | i, a :: as, b :: bs =>
    if !isDynamicDim a && a != b then (i, a) :: lhsSqueezedBatchAux (i + 1) as bs
    else lhsSqueezedBatchAux (i + 1) as bs
  | _, _, _ => []

/-- The RHS-squeezed loop: static batch dims where the two sides differ,
with the RHS size. -/
def rhsSqueezedBatchAux : Nat → List Int → List Int → List (Nat × Int)
  | i, a :: as, b :: bs =>
    if !isDynamicDim b && b != a then (i, b) :: rhsSqueezedBatchAux (i + 1) as bs
    else rhsSqueezedBatchAux (i + 1) as bs
  | _, _, _ => []

/-- Accumulated product of the shape components of a dim/shape list (the
`commonValue` / `squeezedValue` accumulation). -/
def prodSnd (l : List (Nat × Int)) : Int := l.foldl (fun acc p => acc * p.2) 1

/-- `isTransposeRequired` body: scan with the previous dim, report true on
any descent. -/
def isTransposeRequiredAux : Int → List Int → Bool
  | _, [] => false
  | lastDim, d :: rest => if lastDim > d then true else isTransposeRequiredAux d rest

/-- `isTransposeRequired`: a transpose is needed iff the target dim order is
not monotonically non-decreasing (initial `lastDim = -1`). -/
def isTransposeRequired (transposedDims : List Int) : Bool :=
  isTransposeRequiredAux (-1) transposedDims

/-- Batch part of `transposedOpShapes` in `computeOpShape`: dynamic LHS dims
become unknown, agreeing dims are kept, and a broadcast dim takes the
non-1 side. -/
def transposedOpShapesBatch : List Int → List Int → List Int
  | a :: as, b :: bs =>
    (if isDynamicDim a then kUnknownSize
     else if a == b then a
     else if a == 1 then b else a) :: transposedOpShapesBatch as bs
  | _, _ => []

/-- Shape summary of the subgraph `performMatmul` emits. -/
structure MatmulEmission where
  /-- Shape of the LHS operand of the single `tosa.matmul`. -/
  matmulLhsShape : List Int
  /-- Shape of the RHS operand of the single `tosa.matmul`. -/
  matmulRhsShape : List Int
  /-- Static shape of the final output value of the replacement subgraph. -/
  outputShape : List Int
  deriving Repr, DecidableEq

/-- The batch-broadcast branch of `performMatmul` (`performBatchDimBroadcast`
true, hence `maxInputRank ≥ 3` and `performOpReshape` true). -/
def matmulBroadcastEmission (lhsRank rhsRank n : Nat) (lb rb : List Int) :
    MatmulEmission :=
  let A := lb.take (n - 2)
  let B := rb.take (n - 2)
  let commonElems := commonElemsAux 0 A B
  let hasDynamicDimsL := A.any isDynamicDim
  let commonValue0 := prodSnd commonElems
  let commonValue1 := if commonValue0 < 0 then kUnknownSize else commonValue0
  let commonValue := if hasDynamicDimsL then kUnknownSize else commonValue1
  let lhsSqueezedElems := lhsSqueezedBatchAux 0 A B ++ [(n - 2, lb.getD (n - 2) 0)]
  let lhsSqueezedValue0 := prodSnd lhsSqueezedElems
  let lhsSqueezedValue := if lhsSqueezedValue0 < 0 then kUnknownSize else lhsSqueezedValue0
  let matmulLhsShape :=
    [commonValue, if hasDynamicDimsL then kUnknownSize else lhsSqueezedValue,
      lb.getD (n - 1) 0]
  let rhsSqueezedElems := rhsSqueezedBatchAux 0 A B ++ [(n - 1, rb.getD (n - 1) 0)]
  let hasDynamicDimsR := B.any isDynamicDim
  let rhsSqueezedValue0 := prodSnd rhsSqueezedElems
  let rhsSqueezedValue := if hasDynamicDimsR then kUnknownSize else rhsSqueezedValue0
  let matmulRhsShape :=
    [if commonValue < 0 then kUnknownSize else commonValue, rb.getD (n - 2) 0,
      rhsSqueezedValue]
  let reshapedOpPairs :=
    commonElems ++ (lhsSqueezedBatchAux 0 A B).filter (fun p => p.2 ≠ 1)
      ++ (if 1 < lhsRank then [((n - 2 : Nat), lb.getD (n - 2) 0)] else [])
      ++ (rhsSqueezedBatchAux 0 A B).filter (fun p => p.2 ≠ 1)
      ++ (if 1 < rhsRank then [((n - 1 : Nat), rb.getD (n - 1) 0)] else [])
  let transposedOpShape :=
    transposedOpShapesBatch A B
      ++ (if 1 < lhsRank then [lb.getD (n - 2) 0] else [])
      ++ (if 1 < rhsRank then [rb.getD (n - 1) 0] else [])
  let outputShape :=
    if isTransposeRequired (reshapedOpPairs.map (fun p => (p.1 : Int))) then
      transposedOpShape
    else reshapedOpPairs.map (fun p => p.2)
  ⟨matmulLhsShape, matmulRhsShape, outputShape⟩

/-- The non-broadcast branch of `performMatmul`: reshape both operands up to
rank 3; the `tosa.matmul` output is final when `maxInputRank == 3`, otherwise
`computeOpShape`'s `maxInputRank ≤ 2` cases apply (no transpose possible). -/
def matmulSimpleEmission (lhsShape rhsShape : List Int) (n : Nat) (lb rb : List Int) :
    MatmulEmission :=
  let mLhs := reshapeUpTo3DShape lb
  let mRhs := reshapeUpTo3DShape rb
  let mm := [mLhs.getD 0 0, mLhs.getD 1 0, mRhs.getD 2 0]
  if n = 3 then ⟨mLhs, mRhs, mm⟩
  else
    let reshapedOpShape :=
      if n = 1 then []
      else
        (if lhsShape.length = 2 then [lhsShape.getD 0 0] else [])
          ++ (if rhsShape.length = 2 then [rhsShape.getD 1 0] else [])
    ⟨mLhs, mRhs, reshapedOpShape⟩

/-- `ConvertAtenMatmulBaseOp::performMatmul` at the shape level. -/
def performMatmulShapes (lhsShape rhsShape : List Int) : MatmulEmission :=
  let lhsRank := lhsShape.length
  let rhsRank := rhsShape.length
  let maxInputRank0 := max lhsRank rhsRank
  let maxInputRank := if maxInputRank0 = 1 then 2 else maxInputRank0
  let lb := getRankBroadcastedShape maxInputRank false lhsShape
  let rb := getRankBroadcastedShape maxInputRank true rhsShape
  let performBatchDimBroadcast : Bool :=
    if maxInputRank < 3 then false
    else if maxInputRank = 3 ∧ lb.getD 0 0 = rb.getD 0 0 then false
    else true
  if performBatchDimBroadcast then matmulBroadcastEmission lhsRank rhsRank maxInputRank lb rb
  else matmulSimpleEmission lhsShape rhsShape maxInputRank lb rb

/-! ## Spec-side definitions for the matmul shape law -/

/-- Modelled from the spec: rank-broadcast a shape to rank `n` by prepending
size-1 dimensions. -/
def paddedShape (n : Nat) (l : List Int) : List Int :=
  List.replicate (n - l.length) 1 ++ l

/-- Modelled from the spec: the standard broadcast of two equal-rank batch
dims (`a` if they agree, otherwise the non-1 side). -/
def broadcastDim (a b : Int) : Int := if a = 1 then b else a

/-- Modelled from the spec: the standard broadcasting matmul output shape
`[broadcast(leading dims), M, N]` for `A: [..., M, K]`, `B: [..., K, N]`. -/
def specMatmulOutputShape (l r : List Int) : List Int :=
  let n := max l.length r.length
  let pl := paddedShape n l
  let pr := paddedShape n r
  List.zipWith broadcastDim (pl.take (n - 2)) (pr.take (n - 2))
    ++ [pl.getD (n - 2) 0, pr.getD (n - 1) 0]

/-- Modelled from the spec: the leading (batch) dims of the two operands are
broadcast-compatible — after rank broadcasting, each pair agrees or one side
is 1. -/
def leadingDimsCompatible (l r : List Int) : Prop :=
  let n := max l.length r.length
  ∀ p ∈ List.zip ((paddedShape n l).take (n - 2)) ((paddedShape n r).take (n - 2)),
    p.1 = p.2 ∨ p.1 = 1 ∨ p.2 = 1

/-! ## Helper lemmas -/

theorem length_getRankBroadcastedShape (n : Nat) (isRHS : Bool) (shape : List Int)
    (h : shape.length ≤ n) : (getRankBroadcastedShape n isRHS shape).length = n := by
  rcases shape with _ | ⟨s, _ | ⟨b, t⟩⟩
  · simp [getRankBroadcastedShape]
  · simp only [List.length_cons, List.length_nil] at h
    rcases isRHS with _ | _
    · simp [getRankBroadcastedShape]
      omega
    · rcases hk : n - 1 with _ | k
      · simp [getRankBroadcastedShape, hk]
        omega
      · simp [getRankBroadcastedShape, hk]
        omega
  · simp [getRankBroadcastedShape]
    simp only [List.length_cons] at h ⊢
    omega

theorem getRankBroadcastedShape_false_eq_padded (n : Nat) (shape : List Int) :
    getRankBroadcastedShape n false shape = paddedShape n shape := by
  rcases shape with _ | ⟨s, _ | ⟨b, t⟩⟩ <;> simp [getRankBroadcastedShape, paddedShape]

theorem getRankBroadcastedShape_eq_padded_of_len2 (n : Nat) (isRHS : Bool)
    (shape : List Int) (h : 2 ≤ shape.length) :
    getRankBroadcastedShape n isRHS shape = paddedShape n shape := by
  rcases shape with _ | ⟨s, _ | ⟨b, t⟩⟩
  · simp at h
  · simp at h
  · rcases isRHS with _ | _ <;> simp [getRankBroadcastedShape, paddedShape]

theorem paddedShape_length (n : Nat) (shape : List Int) (h : shape.length ≤ n) :
    (paddedShape n shape).length = n := by
  simp [paddedShape]
  omega

theorem paddedShape_nonneg (n : Nat) (shape : List Int)
    (h : ∀ d ∈ shape, 0 ≤ d) : ∀ d ∈ paddedShape n shape, 0 ≤ d := by
  intro d hd
  rcases List.mem_append.mp hd with h1 | h2
  · have := List.eq_of_mem_replicate h1
    omega
  · exact h d h2

theorem isTransposeRequiredAux_false_cons {c x : Int} {l : List Int} :
    isTransposeRequiredAux c (x :: l) = false ↔
      c ≤ x ∧ isTransposeRequiredAux x l = false := by
  simp only [isTransposeRequiredAux]
  split_ifs with hgt
  · simp
    omega
  · simp
    omega

theorem isTransposeRequiredAux_false_mono {c c2 : Int} {l : List Int} (h : c2 ≤ c)
    (hl : isTransposeRequiredAux c l = false) : isTransposeRequiredAux c2 l = false := by
  rcases l with _ | ⟨x, l⟩
  · simp [isTransposeRequiredAux]
  · rcases isTransposeRequiredAux_false_cons.mp hl with ⟨h1, h2⟩
    exact isTransposeRequiredAux_false_cons.mpr ⟨le_trans h h1, h2⟩

theorem isTransposeRequiredAux_false_head_le {y : Int} {ys : List Int} :
    ∀ {l : List Int} {c : Int},
      isTransposeRequiredAux c (l ++ y :: ys) = false → c ≤ y := by
  intro l
  induction l with
  | nil =>
    intro c h
    exact (isTransposeRequiredAux_false_cons.mp h).1
  | cons x l ih =>
    intro c h
    rcases isTransposeRequiredAux_false_cons.mp h with ⟨h1, h2⟩
    exact le_trans h1 (ih h2)

theorem isTransposeRequiredAux_false_mem_le {y : Int} {ys : List Int} :
    ∀ {xs : List Int} {c : Int},
      isTransposeRequiredAux c (xs ++ y :: ys) = false → ∀ x ∈ xs, x ≤ y := by
  intro xs
  induction xs with
  | nil => intro c _ x hx; simp at hx
  | cons x0 xs ih =>
    intro c h x hx
    rcases isTransposeRequiredAux_false_cons.mp h with ⟨_, h2⟩
    rcases List.mem_cons.mp hx with rfl | hx2
    · exact isTransposeRequiredAux_false_head_le h2
    · exact ih h2 x hx2

theorem isTransposeRequiredAux_false_of_append :
    ∀ {xs l : List Int} {c : Int},
      isTransposeRequiredAux c (xs ++ l) = false →
        ∃ d, isTransposeRequiredAux d l = false := by
  intro xs
  induction xs with
  | nil => intro l c h; exact ⟨c, h⟩
  | cons x xs ih =>
    intro l c h
    exact ih (isTransposeRequiredAux_false_cons.mp h).2

theorem commonElemsAux_fst_ge :
    ∀ {i : Nat} {A B : List (Int)} {p : Nat × Int}, p ∈ commonElemsAux i A B → i ≤ p.1 := by
  intro i A
  induction A generalizing i with
  | nil => intro B p hp; simp [commonElemsAux] at hp
  | cons a as ih =>
    intro B p hp
    rcases B with _ | ⟨b, bs⟩
    · simp [commonElemsAux] at hp
    · simp only [commonElemsAux] at hp
      split at hp
      · rcases List.mem_cons.mp hp with rfl | hp2
        · exact le_refl _
        · exact le_trans (Nat.le_succ i) (ih hp2)
      · exact le_trans (Nat.le_succ i) (ih hp)

theorem rhsSqueezedBatchAux_fst_lt :
    ∀ {i : Nat} {A B : List (Int)} {p : Nat × Int},
      p ∈ rhsSqueezedBatchAux i A B → p.1 < i + A.length := by
  intro i A
  induction A generalizing i with
  | nil => intro B p hp; simp [rhsSqueezedBatchAux] at hp
  | cons a as ih =>
    intro B p hp
    rcases B with _ | ⟨b, bs⟩
    · simp [rhsSqueezedBatchAux] at hp
    · simp only [rhsSqueezedBatchAux] at hp
      split at hp
      · rcases List.mem_cons.mp hp with rfl | hp2
        · simp
        · have := ih hp2
          simp only [List.length_cons]
          omega
      · have := ih hp
        simp only [List.length_cons]
        omega

theorem isDynamicDim_eq_false_of_nonneg {a : Int} (h : 0 ≤ a) : isDynamicDim a = false := by
  simp [isDynamicDim, kUnknownSize]
  omega

theorem transposedOpShapesBatch_eq_broadcast :
    ∀ {A B : List Int}, (∀ a ∈ A, 0 ≤ a) →
      transposedOpShapesBatch A B = List.zipWith broadcastDim A B := by
  intro A
  induction A with
  | nil => intro B _; rcases B with _ | ⟨b, bs⟩ <;> simp [transposedOpShapesBatch]
  | cons a as ih =>
    intro B hA
    rcases B with _ | ⟨b, bs⟩
    · simp [transposedOpShapesBatch]
    · have ha : (0 : Int) ≤ a := hA a (List.mem_cons_self _ _)
      simp only [transposedOpShapesBatch, List.zipWith_cons_cons,
        isDynamicDim_eq_false_of_nonneg ha, Bool.false_eq_true, if_false]
      rw [ih (fun x hx => hA x (List.mem_cons_of_mem _ hx))]
      congr 1
      by_cases hab : a = b
      · subst hab
        simp [broadcastDim]
      · by_cases h1 : a = 1 <;> simp [hab, h1, broadcastDim]


theorem isTransposeRequiredAux_false_neg_one {c : Int} {l : List Int} (hc : -1 ≤ c)
    (hl : isTransposeRequiredAux c l = false) : isTransposeRequiredAux (-1) l = false :=
  isTransposeRequiredAux_false_mono hc hl

theorem broadcastDim_self (a : Int) : broadcastDim a a = a := by
  simp [broadcastDim]

theorem noTranspose_common_squeeze (jv kv : Int) :
    ∀ (A : List Int) (i : Nat) (B : List Int),
      (∀ a ∈ A, 0 ≤ a) → (∀ b ∈ B, 0 ≤ b) →
      (∀ p ∈ List.zip A B, p.1 = p.2 ∨ p.1 = 1 ∨ p.2 = 1) →
      ((i : Int) + A.length ≤ jv) →
      isTransposeRequiredAux (-1)
        ((commonElemsAux i A B).map (fun p => (p.1 : Int))
          ++ ((lhsSqueezedBatchAux i A B).filter (fun p => p.2 ≠ 1)).map (fun p => (p.1 : Int))
          ++ jv :: (((rhsSqueezedBatchAux i A B).filter (fun p => p.2 ≠ 1)).map
              (fun p => (p.1 : Int)) ++ [kv])) = false →
      ((commonElemsAux i A B ++ (lhsSqueezedBatchAux i A B).filter (fun p => p.2 ≠ 1)).map
          (fun p => p.2) = List.zipWith broadcastDim A B ∧
        (rhsSqueezedBatchAux i A B).filter (fun p => p.2 ≠ 1) = []) := by
  intro A
  induction A with
  | nil =>
    intro i B _ _ _ _ _
    simp [commonElemsAux, lhsSqueezedBatchAux, rhsSqueezedBatchAux]
  | cons a as ih =>
    intro i B hA hB hcompat hlen htr
    rcases B with _ | ⟨b, bs⟩
    · simp [commonElemsAux, lhsSqueezedBatchAux, rhsSqueezedBatchAux]
    · have ha : (0 : Int) ≤ a := hA a (List.mem_cons_self _ _)
      have hb : (0 : Int) ≤ b := hB b (List.mem_cons_self _ _)
      have hA2 : ∀ x ∈ as, (0 : Int) ≤ x := fun x hx => hA x (List.mem_cons_of_mem _ hx)
      have hB2 : ∀ x ∈ bs, (0 : Int) ≤ x := fun x hx => hB x (List.mem_cons_of_mem _ hx)
      have hcompat2 : ∀ p ∈ List.zip as bs, p.1 = p.2 ∨ p.1 = 1 ∨ p.2 = 1 :=
        fun p hp => hcompat p (List.mem_cons_of_mem _ hp)
      have hlen2 : ((i + 1 : Nat) : Int) + as.length ≤ jv := by
        simp only [List.length_cons] at hlen
        push_cast at hlen ⊢
        omega
      by_cases hab : a = b
      · -- common dimension
        have hcue : commonElemsAux i (a :: as) (b :: bs)
            = (i, a) :: commonElemsAux (i + 1) as bs := by
          simp [commonElemsAux, hab]
        have hlse : lhsSqueezedBatchAux i (a :: as) (b :: bs)
            = lhsSqueezedBatchAux (i + 1) as bs := by
          simp [lhsSqueezedBatchAux, hab, isDynamicDim_eq_false_of_nonneg ha]
        have hrse : rhsSqueezedBatchAux i (a :: as) (b :: bs)
            = rhsSqueezedBatchAux (i + 1) as bs := by
          simp [rhsSqueezedBatchAux, hab, isDynamicDim_eq_false_of_nonneg hb]
        rw [hcue, hlse, hrse] at htr ⊢
        simp only [List.map_cons, List.cons_append] at htr
        have htr2 := isTransposeRequiredAux_false_neg_one (by omega)
          (isTransposeRequiredAux_false_cons.mp htr).2
        rcases ih (i + 1) bs hA2 hB2 hcompat2 hlen2 htr2 with ⟨hmain, hrf⟩
        refine ⟨?_, hrf⟩
        simp only [List.cons_append, List.map_cons, List.zipWith_cons_cons, hmain]
        congr 1
        rw [hab, broadcastDim_self]
      · have hstepl : lhsSqueezedBatchAux i (a :: as) (b :: bs)
            = (i, a) :: lhsSqueezedBatchAux (i + 1) as bs := by
          simp [lhsSqueezedBatchAux, hab, isDynamicDim_eq_false_of_nonneg ha]
        have hstepr : rhsSqueezedBatchAux i (a :: as) (b :: bs)
            = (i, b) :: rhsSqueezedBatchAux (i + 1) as bs := by
          have hba : ¬ b = a := fun h => hab h.symm
          simp [rhsSqueezedBatchAux, hba, isDynamicDim_eq_false_of_nonneg hb]
        have hcue : commonElemsAux i (a :: as) (b :: bs) = commonElemsAux (i + 1) as bs := by
          simp [commonElemsAux, hab, isDynamicDim_eq_false_of_nonneg ha]
        by_cases ha1 : a = 1
        · -- a = 1 broadcasts: the rhs-squeezed entry forces a transpose, contradiction
          have hb1 : b ≠ 1 := fun h => hab (by rw [ha1, h])
          have hlse : (lhsSqueezedBatchAux i (a :: as) (b :: bs)).filter (fun p => p.2 ≠ 1)
              = (lhsSqueezedBatchAux (i + 1) as bs).filter (fun p => p.2 ≠ 1) := by
            rw [hstepl]
            simp [List.filter_cons, ha1]
          have hrse : (rhsSqueezedBatchAux i (a :: as) (b :: bs)).filter (fun p => p.2 ≠ 1)
              = (i, b) :: (rhsSqueezedBatchAux (i + 1) as bs).filter (fun p => p.2 ≠ 1) := by
            rw [hstepr]
            simp [List.filter_cons, hb1]
          rw [hcue, hlse, hrse] at htr
          simp only [List.map_cons] at htr
          rw [show (commonElemsAux (i + 1) as bs).map (fun p => (p.1 : Int))
                ++ ((lhsSqueezedBatchAux (i + 1) as bs).filter (fun p => p.2 ≠ 1)).map
                    (fun p => (p.1 : Int))
                ++ jv :: ((i : Int) :: ((rhsSqueezedBatchAux (i + 1) as bs).filter
                    (fun p => p.2 ≠ 1)).map (fun p => (p.1 : Int)) ++ [kv])
              = ((commonElemsAux (i + 1) as bs).map (fun p => (p.1 : Int))
                ++ ((lhsSqueezedBatchAux (i + 1) as bs).filter (fun p => p.2 ≠ 1)).map
                    (fun p => (p.1 : Int)))
                ++ (jv :: (i : Int) :: (((rhsSqueezedBatchAux (i + 1) as bs).filter
                    (fun p => p.2 ≠ 1)).map (fun p => (p.1 : Int)) ++ [kv]))
              from by simp] at htr
          rcases isTransposeRequiredAux_false_of_append htr with ⟨d, hd⟩
          have h1 := (isTransposeRequiredAux_false_cons.mp hd).2
          have h2 := (isTransposeRequiredAux_false_cons.mp h1).1
          simp only [List.length_cons] at hlen
          push_cast at hlen
          omega
        · -- a is a kept lhs-squeezed dimension; all common dims must be later
          have hb1 : b = 1 := by
            rcases hcompat (a, b) (by simp) with h | h | h
            · exact absurd h hab
            · exact absurd h ha1
            · exact h
          have hlse : (lhsSqueezedBatchAux i (a :: as) (b :: bs)).filter (fun p => p.2 ≠ 1)
              = (i, a) :: (lhsSqueezedBatchAux (i + 1) as bs).filter (fun p => p.2 ≠ 1) := by
            rw [hstepl]
            simp [List.filter_cons, ha1]
          have hrse : (rhsSqueezedBatchAux i (a :: as) (b :: bs)).filter (fun p => p.2 ≠ 1)
              = (rhsSqueezedBatchAux (i + 1) as bs).filter (fun p => p.2 ≠ 1) := by
            rw [hstepr]
            simp [List.filter_cons, hb1]
          rw [hcue, hlse, hrse] at htr ⊢
          simp only [List.map_cons] at htr
          -- the common elems of the tail must be empty
          have hC : commonElemsAux (i + 1) as bs = [] := by
            by_contra hne
            rcases List.exists_mem_of_ne_nil _ hne with ⟨p, hp⟩
            have hge : i + 1 ≤ p.1 := commonElemsAux_fst_ge hp
            have hmem : ((p.1 : Int)) ∈ (commonElemsAux (i + 1) as bs).map
                (fun p => (p.1 : Int)) := List.mem_map_of_mem _ hp
            have hform : (commonElemsAux (i + 1) as bs).map (fun p => (p.1 : Int))
                ++ ((i : Int) :: ((lhsSqueezedBatchAux (i + 1) as bs).filter
                    (fun p => p.2 ≠ 1)).map (fun p => (p.1 : Int)))
                ++ jv :: (((rhsSqueezedBatchAux (i + 1) as bs).filter
                    (fun p => p.2 ≠ 1)).map (fun p => (p.1 : Int)) ++ [kv])
                = (commonElemsAux (i + 1) as bs).map (fun p => (p.1 : Int))
                ++ (i : Int) :: (((lhsSqueezedBatchAux (i + 1) as bs).filter
                    (fun p => p.2 ≠ 1)).map (fun p => (p.1 : Int))
                  ++ jv :: (((rhsSqueezedBatchAux (i + 1) as bs).filter
                    (fun p => p.2 ≠ 1)).map (fun p => (p.1 : Int)) ++ [kv])) := by
              simp
            rw [hform] at htr
            have := isTransposeRequiredAux_false_mem_le htr _ hmem
            omega
          rw [hC] at htr ⊢
          simp only [List.nil_append, List.map_nil] at htr ⊢
          have htr2 := isTransposeRequiredAux_false_neg_one (by omega)
            (isTransposeRequiredAux_false_cons.mp htr).2
          have htr3 : isTransposeRequiredAux (-1)
              ((commonElemsAux (i + 1) as bs).map (fun p => (p.1 : Int))
                ++ ((lhsSqueezedBatchAux (i + 1) as bs).filter (fun p => p.2 ≠ 1)).map
                    (fun p => (p.1 : Int))
                ++ jv :: (((rhsSqueezedBatchAux (i + 1) as bs).filter
                    (fun p => p.2 ≠ 1)).map (fun p => (p.1 : Int)) ++ [kv])) = false := by
            rw [hC]
            simpa using htr2
          rcases ih (i + 1) bs hA2 hB2 hcompat2 hlen2 htr3 with ⟨hmain, hrf⟩
          rw [hC] at hmain
          simp only [List.nil_append] at hmain
          refine ⟨?_, hrf⟩
          simp only [List.map_cons, List.zipWith_cons_cons, hmain]
          congr 1
          simp [broadcastDim, ha1]

theorem reshapeUpTo3DShape_getD_zero_short (l : List Int) (h : l.length < 3) :
    (reshapeUpTo3DShape l).getD 0 0 = 1 := by
  rcases l with _ | ⟨a, _ | ⟨b, _ | ⟨c, t⟩⟩⟩
  · rfl
  · rfl
  · rfl
  · simp only [List.length_cons] at h
    omega

theorem reshapeUpTo3DShape_of_length_three (l : List Int) (h : l.length = 3) :
    reshapeUpTo3DShape l = l := by
  rcases List.length_eq_three.mp h with ⟨a, b, c, rfl⟩
  rfl

theorem matmulBroadcastEmission_outputShape (lhsRank rhsRank n : Nat) (lb rb : List Int)
    (hl : 1 < lhsRank) (hr : 1 < rhsRank)
    (hA : ∀ a ∈ lb.take (n - 2), (0 : Int) ≤ a)
    (hB : ∀ b ∈ rb.take (n - 2), (0 : Int) ≤ b)
    (hcompat : ∀ p ∈ List.zip (lb.take (n - 2)) (rb.take (n - 2)),
        p.1 = p.2 ∨ p.1 = 1 ∨ p.2 = 1) :
    (matmulBroadcastEmission lhsRank rhsRank n lb rb).outputShape
      = List.zipWith broadcastDim (lb.take (n - 2)) (rb.take (n - 2))
        ++ [lb.getD (n - 2) 0, rb.getD (n - 1) 0] := by
  unfold matmulBroadcastEmission
  dsimp only
  rw [if_pos hl, if_pos hr]
  split
  · -- transpose emitted: the declared transpose output shape is the broadcast shape
    rw [transposedOpShapesBatch_eq_broadcast hA]
    simp
  · -- no transpose required: the reshape output shape is already the broadcast shape
    rename_i htr
    rw [Bool.not_eq_true] at htr
    rw [isTransposeRequired] at htr
    have hlen : ((0 : Nat) : Int) + ((lb.take (n - 2)).length : Int) ≤ ((n - 2 : Nat) : Int) := by
      have := List.length_take_le (n - 2) lb
      push_cast
      omega
    have hNT := noTranspose_common_squeeze ((n - 2 : Nat) : Int) ((n - 1 : Nat) : Int)
      (lb.take (n - 2)) 0 (rb.take (n - 2)) hA hB hcompat hlen (by
        simpa [List.append_assoc] using htr)
    rcases hNT with ⟨hmain, hrf⟩
    simp only [List.map_append, hrf, List.map_nil, List.nil_append, List.map_cons,
      List.append_assoc]
    rw [List.map_append] at hmain
    rw [← List.append_assoc, hmain]
    simp

theorem matmulBroadcastEmission_batch_eq (lhsRank rhsRank n : Nat) (lb rb : List Int) :
    (matmulBroadcastEmission lhsRank rhsRank n lb rb).matmulLhsShape.getD 0 0
      = (matmulBroadcastEmission lhsRank rhsRank n lb rb).matmulRhsShape.getD 0 0 := by
  unfold matmulBroadcastEmission
  dsimp only
  simp only [List.getD_cons_zero]
  generalize prodSnd (commonElemsAux 0 (lb.take (n - 2)) (rb.take (n - 2))) = c
  generalize (lb.take (n - 2)).any isDynamicDim = hd
  rcases hd
  · simp only [Bool.false_eq_true, if_false, kUnknownSize]
    split_ifs <;> omega
  · simp [kUnknownSize]

theorem matmulSimpleEmission_batch_eq (lhsShape rhsShape : List Int) (n : Nat)
    (lb rb : List Int) (hll : lb.length = n) (hlr : rb.length = n)
    (h : n < 3 ∨ (n = 3 ∧ lb.getD 0 0 = rb.getD 0 0)) :
    (matmulSimpleEmission lhsShape rhsShape n lb rb).matmulLhsShape.getD 0 0
      = (matmulSimpleEmission lhsShape rhsShape n lb rb).matmulRhsShape.getD 0 0 := by
  unfold matmulSimpleEmission
  dsimp only
  rcases h with hlt | ⟨h3, heq⟩
  · rw [if_neg (by omega)]
    dsimp only
    rw [reshapeUpTo3DShape_getD_zero_short lb (by omega),
      reshapeUpTo3DShape_getD_zero_short rb (by omega)]
  · rw [if_pos h3]
    dsimp only
    rw [reshapeUpTo3DShape_of_length_three lb (by omega),
      reshapeUpTo3DShape_of_length_three rb (by omega)]
    exact heq

/-! ## Claim theorems -/

/-- C2: for every pair of ranked operand shapes handled by the matmul
legalization — including shapes with dynamic batch dimensions — the two
rank-3 tensors fed to the single emitted `tosa.matmul` have equal size in
dimension 0, so the batch-size assertion in `performMatmul` can never fire. -/
theorem matmul_tosa_batch_sizes_always_equal (lhsShape rhsShape : List Int) :
    (performMatmulShapes lhsShape rhsShape).matmulLhsShape.getD 0 0
      = (performMatmulShapes lhsShape rhsShape).matmulRhsShape.getD 0 0 := by
  unfold performMatmulShapes
  dsimp only
  set n := if max lhsShape.length rhsShape.length = 1 then 2
    else max lhsShape.length rhsShape.length with hn
  set lb := getRankBroadcastedShape n false lhsShape with hlb
  set rb := getRankBroadcastedShape n true rhsShape with hrb
  have hmaxl := Nat.le_max_left lhsShape.length rhsShape.length
  have hmaxr := Nat.le_max_right lhsShape.length rhsShape.length
  have hnl : lhsShape.length ≤ n := by
    rw [hn]
    split <;> omega
  have hnr : rhsShape.length ≤ n := by
    rw [hn]
    split <;> omega
  have hll : lb.length = n := length_getRankBroadcastedShape n false lhsShape hnl
  have hlr : rb.length = n := length_getRankBroadcastedShape n true rhsShape hnr
  split
  · -- maxInputRank < 3: simple path
    rename_i hlt
    simp only [Bool.false_eq_true, if_false]
    exact matmulSimpleEmission_batch_eq _ _ _ _ _ hll hlr (Or.inl hlt)
  · rename_i hlt
    split
    · -- rank-3 with agreeing batch dims: simple path
      rename_i heq
      simp only [Bool.false_eq_true, if_false]
      exact matmulSimpleEmission_batch_eq _ _ _ _ _ hll hlr (Or.inr heq)
    · -- batch-broadcast path
      rw [if_pos rfl]
      exact matmulBroadcastEmission_batch_eq _ _ _ _ _

/-- C1: for every pair of statically shaped operands `A : [..., M, K]`,
`B : [..., K, N]` (ranks ≥ 2) with broadcast-compatible leading dims, the
replacement subgraph built by `performMatmul` has final output static shape
`[broadcast(leading dims), M, N]`, the standard broadcasting matmul shape. -/
theorem matmul_output_shape_law (lhsShape rhsShape : List Int)
    (hl : 2 ≤ lhsShape.length) (hr : 2 ≤ rhsShape.length)
    (hstatl : ∀ d ∈ lhsShape, 0 ≤ d) (hstatr : ∀ d ∈ rhsShape, 0 ≤ d)
    (hcompat : leadingDimsCompatible lhsShape rhsShape) :
    (performMatmulShapes lhsShape rhsShape).outputShape
      = specMatmulOutputShape lhsShape rhsShape := by
  have hm2 : 2 ≤ max lhsShape.length rhsShape.length :=
    le_trans hl (Nat.le_max_left _ _)
  have hmne1 : ¬ (max lhsShape.length rhsShape.length = 1) := by omega
  unfold leadingDimsCompatible at hcompat
  unfold performMatmulShapes specMatmulOutputShape
  dsimp only at hcompat ⊢
  rw [if_neg hmne1]
  rw [getRankBroadcastedShape_false_eq_padded,
    getRankBroadcastedShape_eq_padded_of_len2 _ _ _ hr]
  set m := max lhsShape.length rhsShape.length with hm
  set pl := paddedShape m lhsShape with hpldef
  set pr := paddedShape m rhsShape with hprdef
  have hml : lhsShape.length ≤ m := hm ▸ Nat.le_max_left _ _
  have hmr : rhsShape.length ≤ m := hm ▸ Nat.le_max_right _ _
  have hpll : pl.length = m := paddedShape_length m lhsShape hml
  have hprl : pr.length = m := paddedShape_length m rhsShape hmr
  have hA : ∀ a ∈ pl.take (m - 2), (0 : Int) ≤ a := fun a ha =>
    paddedShape_nonneg m lhsShape hstatl a ((List.take_sublist _ _).subset ha)
  have hB : ∀ b ∈ pr.take (m - 2), (0 : Int) ≤ b := fun b hb =>
    paddedShape_nonneg m rhsShape hstatr b ((List.take_sublist _ _).subset hb)
  split
  · -- maxInputRank < 3, hence exactly 2: plain mm case
    rename_i hlt
    simp only [Bool.false_eq_true, if_false]
    have hm2e : m = 2 := by omega
    have hl2 : lhsShape.length = 2 := by omega
    have hr2 : rhsShape.length = 2 := by omega
    unfold matmulSimpleEmission
    dsimp only
    rw [if_neg (by omega : ¬ m = 3)]
    dsimp only
    rw [if_neg (by omega : ¬ m = 1), if_pos hl2, if_pos hr2]
    have hple : pl = lhsShape := by
      rw [hpldef, paddedShape, hl2, hm2e]
      simp
    have hpre : pr = rhsShape := by
      rw [hprdef, paddedShape, hr2, hm2e]
      simp
    rw [hm2e, hple, hpre]
    simp
  · rename_i hlt
    split
    · -- rank 3 with agreeing batch dims
      rename_i heq
      simp only [Bool.false_eq_true, if_false]
      have hpl3 : pl.length = 3 := by omega
      have hpr3 : pr.length = 3 := by omega
      unfold matmulSimpleEmission
      dsimp only
      rw [if_pos heq.1]
      rw [reshapeUpTo3DShape_of_length_three pl hpl3,
        reshapeUpTo3DShape_of_length_three pr hpr3]
      rcases List.length_eq_three.mp hpl3 with ⟨a, b, c, hpla⟩
      rcases List.length_eq_three.mp hpr3 with ⟨d, e, f, hpra⟩
      have heq2 : a = d := by
        have := heq.2
        rw [hpla, hpra] at this
        simpa using this
      rw [heq.1, hpla, hpra]
      simp only [List.take, List.zipWith_cons_cons, List.zipWith_nil_right]
      rw [← heq2, broadcastDim_self]
      simp [List.getD]
    · -- batch-broadcast path
      rw [if_pos rfl]
      exact matmulBroadcastEmission_outputShape lhsShape.length rhsShape.length m pl pr
        (by omega) (by omega) hA hB hcompat

theorem generateSqueezedShapeOneDimAux_keep_all (shape : List Int) :
    ∀ (squeezeDim c : Int), squeezeDim < c →
      generateSqueezedShapeOneDimAux squeezeDim c shape = shape := by
  induction shape with
  | nil => intro _ _ _; rfl
  | cons d rest ih =>
    intro squeezeDim c hc
    simp only [generateSqueezedShapeOneDimAux]
    rw [if_pos (Or.inr (by omega)), ih squeezeDim (c + 1) (by omega)]

theorem generateSqueezedShapeOneDimAux_eq (shape : List Int) :
    ∀ (c : Int) (j : Nat), j < shape.length →
      generateSqueezedShapeOneDimAux (c + j) c shape =
        if shape.getD j 0 = 1 then shape.eraseIdx j else shape := by
  induction shape with
  | nil => intro c j hj; simp at hj
  | cons d rest ih =>
    intro c j hj
    rcases j with _ | j
    · simp only [Nat.cast_zero, add_zero, generateSqueezedShapeOneDimAux]
      by_cases hd : d = 1
      · rw [if_neg (by simp [hd]), generateSqueezedShapeOneDimAux_keep_all rest c (c + 1) (by omega)]
        simp [hd]
      · rw [if_pos (Or.inl hd), generateSqueezedShapeOneDimAux_keep_all rest c (c + 1) (by omega)]
        simp [List.getD_cons_zero, hd]
    · simp only [generateSqueezedShapeOneDimAux]
      rw [if_pos (Or.inr (by push_cast; omega))]
      have hrw : c + ((j + 1 : Nat) : Int) = (c + 1) + (j : Nat) := by push_cast; omega
      rw [hrw, ih (c + 1) j (by simpa using hj)]
      simp only [List.getD_cons_succ, List.eraseIdx_cons_succ]
      split <;> rfl

/-- C4: squeeze legalizations remove exactly the statically-known size-1
dimensions matching the request: the one-dim variant removes index `j` iff
its size is statically 1 (in particular never a dynamic dimension, even when
the constant dim argument names it), and the all-dims variant keeps exactly
the dimensions not statically equal to 1. -/
theorem squeeze_removes_exactly_static_ones :
    (∀ (shape : List Int) (j : Nat), j < shape.length →
        generateSqueezedShapeOneDim shape (some (j : Int)) =
          .ok (if shape.getD j 0 = 1 then shape.eraseIdx j else shape)) ∧
    (∀ (shape : List Int) (j : Nat), j < shape.length →
        isDynamicDim (shape.getD j 0) = true →
        generateSqueezedShapeOneDim shape (some (j : Int)) = .ok shape) ∧
    (∀ shape : List Int,
        (generateSqueezedShapeAllDims shape).Sublist shape ∧
        (1 : Int) ∉ generateSqueezedShapeAllDims shape ∧
        ∀ d : Int, d ≠ 1 →
          (generateSqueezedShapeAllDims shape).count d = shape.count d) := by
  have hone : ∀ (shape : List Int) (j : Nat), j < shape.length →
      generateSqueezedShapeOneDim shape (some (j : Int)) =
        .ok (if shape.getD j 0 = 1 then shape.eraseIdx j else shape) := by
    intro shape j hj
    unfold generateSqueezedShapeOneDim
    dsimp only
    rw [if_neg (by omega : ¬ ((j : Int) < 0))]
    have := generateSqueezedShapeOneDimAux_eq shape 0 j hj
    rw [zero_add] at this
    rw [this]
  refine ⟨hone, ?_, ?_⟩
  · intro shape j hj hdyn
    rw [hone shape j hj]
    simp only [isDynamicDim, kUnknownSize, beq_iff_eq] at hdyn
    rw [if_neg (by omega)]
  · intro shape
    refine ⟨List.filter_sublist _, ?_, ?_⟩
    · simp [generateSqueezedShapeAllDims, List.mem_filter]
    · intro d hd
      unfold generateSqueezedShapeAllDims
      exact List.count_filter (by simpa using hd)

/-- C9: the less-than comparisons are legalized as `tosa.greater` with the
operands swapped and the not-equal comparisons as `tosa.equal` followed by
`tosa.logical_not`, and the emitted subgraphs compute exactly the less-than
and not-equal semantics. -/
theorem compare_lt_ne_legalization :
    (∀ a b : Int,
      tosaOpForCompare .ltTensor = .greaterOp ∧ compareSwapLhsRhs .ltTensor = true ∧
      tosaOpForCompare .ltScalar = .greaterOp ∧ compareSwapLhsRhs .ltScalar = true ∧
      compareLegalizedEval .ltTensor a b = decide (a < b) ∧
      compareLegalizedEval .ltScalar a b = decide (a < b)) ∧
    (∀ a b : Int,
      tosaOpForCompare .neTensor = .equalOp ∧ compareAppliesNot .neTensor = true ∧
      tosaOpForCompare .neScalar = .equalOp ∧ compareAppliesNot .neScalar = true ∧
      compareLegalizedEval .neTensor a b = decide (a ≠ b) ∧
      compareLegalizedEval .neScalar a b = decide (a ≠ b)) := by
  constructor
  · intro a b
    refine ⟨rfl, by decide, rfl, by decide, ?_, ?_⟩ <;>
      simp [compareLegalizedEval, evalTosaCompare, tosaOpForCompare, compareSwapLhsRhs,
        compareAppliesNot]
  · intro a b
    refine ⟨rfl, by decide, rfl, by decide, ?_, ?_⟩ <;>
      (simp [compareLegalizedEval, evalTosaCompare, tosaOpForCompare, compareSwapLhsRhs,
        compareAppliesNot, decide_not]) <;>
      (by_cases h : a = b <;> simp [h])

theorem argmaxChain_eq (keepDim : Bool) :
    ∀ (r : Nat) (s : List Int),
      argmaxChain keepDim r s =
        ((List.range r).map (fun i =>
            .tosaArgMax ((buildArgmaxShape keepDim 0)^[i] s) 0
              ((buildArgmaxShape keepDim 0)^[i + 1] s)),
          (buildArgmaxShape keepDim 0)^[r] s) := by
  intro r
  induction r with
  | zero => intro s; simp [argmaxChain]
  | succ r ih =>
    intro s
    simp only [argmaxChain, ih (buildArgmaxShape keepDim 0 s)]
    rw [List.range_succ_eq_map]
    simp [Function.comp_def, Function.iterate_succ_apply, List.map_map]

/-- C5: for an all-dims argmax (no dim specified) over a rank-`R` input with
constant `keepdim`, the legalizer emits exactly `R` chained `tosa.argmax`
nodes, each reducing dimension 0 of the previous result, and finally widens
the 32-bit index result to the required 64-bit type with `arith.extsi`
rather than `tosa.cast`. -/
theorem argmax_all_dims_chain (selfShape : List Int) (keepDim : Bool) :
    convertAtenArgmax selfShape none (some keepDim) 64 =
      .ok ((List.range selfShape.length).map (fun i =>
            .tosaArgMax ((buildArgmaxShape keepDim 0)^[i] selfShape) 0
              ((buildArgmaxShape keepDim 0)^[i + 1] selfShape))
          ++ [.arithExtSI ((buildArgmaxShape keepDim 0)^[selfShape.length] selfShape) 64],
          (buildArgmaxShape keepDim 0)^[selfShape.length] selfShape) ∧
    (∀ ops out,
      convertAtenArgmax selfShape none (some keepDim) 64 = .ok (ops, out) →
        (ops.filter (fun op => match op with
            | .tosaArgMax _ _ _ => true | _ => false)).length = selfShape.length ∧
        (∀ op ∈ ops, (match op with | .tosaCast _ => false | _ => true) = true) ∧
        ops.getLast? = some (.arithExtSI out 64)) := by
  have hmain : convertAtenArgmax selfShape none (some keepDim) 64 =
      .ok ((List.range selfShape.length).map (fun i =>
            .tosaArgMax ((buildArgmaxShape keepDim 0)^[i] selfShape) 0
              ((buildArgmaxShape keepDim 0)^[i + 1] selfShape))
          ++ [.arithExtSI ((buildArgmaxShape keepDim 0)^[selfShape.length] selfShape) 64],
          (buildArgmaxShape keepDim 0)^[selfShape.length] selfShape) := by
    unfold convertAtenArgmax
    dsimp only
    rw [if_pos rfl, argmaxChain_eq]
  refine ⟨hmain, ?_⟩
  intro ops out hok
  rw [hmain] at hok
  rcases hok with ⟨rfl⟩
  refine ⟨?_, ?_, ?_⟩
  · rw [List.filter_append]
    rw [List.filter_eq_self.mpr (by
      intro op hop
      rcases List.mem_map.mp hop with ⟨i, _, rfl⟩
      rfl)]
    simp
  · intro op hop
    rcases List.mem_append.mp hop with h1 | h2
    · rcases List.mem_map.mp h1 with ⟨i, _, rfl⟩
      rfl
    · simp only [List.mem_singleton] at h2
      rw [h2]
  · exact List.getLast?_concat _

/-- C6: in a successful alpha-scaled add/sub legalization with integer
declared output element type, the alpha multiply is emitted at 32-bit integer
type regardless of the logical width; a 64-bit integer output computes the
add/sub at 32 bits and then widens with a cast; a floating-point output
performs the scaling multiply in that floating type. -/
theorem addsub_integer_scaling_spec :
    ∀ (lhsTy : Option MlirType) (rhs : AddSubRhs) (alpha : TorchScalar)
      (outElemTy : MlirType) (e : AddSubEmission),
      convertAtenAddSub lhsTy rhs alpha outElemTy = .ok e →
        ((∀ w, outElemTy = .int w → e.mulElemTy = .int 32) ∧
         (outElemTy = .int 64 → e.opElemTy = .int 32 ∧ e.finalCastTo = some (.int 64)) ∧
         (∀ w, outElemTy = .float w →
            e.mulElemTy = .float w ∧ e.opElemTy = .float w ∧ e.finalCastTo = none)) := by
  intro lhsTy rhs alpha outElemTy e h
  rcases lhsTy with _ | t
  · simp [convertAtenAddSub] at h
  · unfold convertAtenAddSub at h
    dsimp only at h
    split at h
    · simp at h
    · split at h
      · simp at h
      · split at h
        · simp at h
        · split at h
          · simp at h
          · split at h
            · -- float or i32 output
              rename_i hcond
              rw [Except.ok.injEq] at h
              subst h
              rcases outElemTy with w | w | _
              · refine ⟨?_, ?_, ?_⟩
                · intro w2 hw2
                  simp at hw2
                · intro h64
                  simp at h64
                · intro w2 hw2
                  rw [MlirType.float.injEq] at hw2
                  subst hw2
                  simp [MlirType.isFloatTy]
              · have hw32 : MlirType.int w = MlirType.int 32 := by
                  rcases hcond with hfl | h32
                  · simp [MlirType.isFloatTy] at hfl
                  · exact h32
                refine ⟨?_, ?_, ?_⟩
                · intro w2 _
                  simp [MlirType.isFloatTy]
                · intro h64
                  rw [hw32] at h64
                  simp at h64
                · intro w2 hw2
                  simp at hw2
              · rcases hcond with hfl | h32
                · simp [MlirType.isFloatTy] at hfl
                · simp at h32
            · split at h
              · -- i64 output
                rename_i hcond h64
                rw [Except.ok.injEq] at h
                subst h
                rw [h64]
                refine ⟨?_, ?_, ?_⟩
                · intro w2 _
                  simp [MlirType.isFloatTy]
                · intro _
                  exact ⟨rfl, rfl⟩
                · intro w2 hw2
                  simp at hw2
              · simp at h

theorem isInValidRange_float_iff (lo hi : Int) (q : ℚ) :
    isInValidRange lo hi true q 0 = true ↔ doubleOfInt (castDoubleToInt lo hi q) = q := by
  unfold isInValidRange
  rw [if_pos rfl, beq_iff_eq]
  exact eq_comm

theorem isInValidRange_int_iff (lo hi n : Int) :
    isInValidRange lo hi false 0 n = true ↔ lo ≤ n ∧ n ≤ hi := by
  unfold isInValidRange
  rw [if_neg (by simp)]
  simp

theorem castIntWrap_32_eq_self {n : Int} (hlo : intMinOfWidth 32 ≤ n)
    (hhi : n ≤ intMaxOfWidth 32) : castIntWrap 32 n = n := by
  unfold intMinOfWidth at hlo
  unfold intMaxOfWidth at hhi
  unfold castIntWrap
  norm_num at hlo hhi ⊢
  omega

theorem torchScalarToTosaTensor_float_32 (q : ℚ) :
    torchScalarToTosaTensor (.floatConst q) (.int 32)
      = if doubleOfInt (castDoubleToInt (intMinOfWidth 32) (intMaxOfWidth 32) q) = q
        then .ok (.int32T (castDoubleToInt (intMinOfWidth 32) (intMaxOfWidth 32) q))
        else .error "Supplied value of scalar constant exceeds limits of destination type" := by
  unfold torchScalarToTosaTensor torchScalarToTosaTensorAux
  norm_num
  by_cases hv : doubleOfInt (castDoubleToInt (intMinOfWidth 32) (intMaxOfWidth 32) q) = q
  · rw [if_pos hv, if_neg (by simp [(isInValidRange_float_iff _ _ _).mpr hv])]
  · rw [if_neg hv, if_pos (by
      rw [← Bool.not_eq_true]
      intro h
      exact hv ((isInValidRange_float_iff _ _ _).mp h))]

theorem torchScalarToTosaTensor_float_64 (q : ℚ) :
    torchScalarToTosaTensor (.floatConst q) (.int 64)
      = if doubleOfInt (castDoubleToInt (intMinOfWidth 64) (intMaxOfWidth 64) q) = q
        then .ok (.int64T (castDoubleToInt (intMinOfWidth 64) (intMaxOfWidth 64) q))
        else .error "Supplied value of scalar constant exceeds limits of destination type" := by
  unfold torchScalarToTosaTensor torchScalarToTosaTensorAux
  norm_num
  by_cases hv : doubleOfInt (castDoubleToInt (intMinOfWidth 64) (intMaxOfWidth 64) q) = q
  · rw [if_pos hv, if_neg (by simp [(isInValidRange_float_iff _ _ _).mpr hv])]
  · rw [if_neg hv, if_pos (by
      rw [← Bool.not_eq_true]
      intro h
      exact hv ((isInValidRange_float_iff _ _ _).mp h))]

theorem torchScalarToTosaTensor_int_32 (n : Int) :
    torchScalarToTosaTensor (.intConst n) (.int 32)
      = if intMinOfWidth 32 ≤ n ∧ n ≤ intMaxOfWidth 32
        then .ok (.int32T n)
        else .error "Supplied value of scalar constant exceeds limits of destination type" := by
  unfold torchScalarToTosaTensor torchScalarToTosaTensorAux
  norm_num
  by_cases hv : intMinOfWidth 32 ≤ n ∧ n ≤ intMaxOfWidth 32
  · rw [if_pos hv, if_neg (by simp [(isInValidRange_int_iff _ _ _).mpr hv]),
      castIntWrap_32_eq_self hv.1 hv.2]
  · rw [if_neg hv, if_pos (by
      rw [← Bool.not_eq_true]
      intro h
      exact hv ((isInValidRange_int_iff _ _ _).mp h))]

theorem torchScalarToTosaTensor_int_64 (n : Int) :
    torchScalarToTosaTensor (.intConst n) (.int 64)
      = if intMinOfWidth 64 ≤ n ∧ n ≤ intMaxOfWidth 64
        then .ok (.int64T n)
        else .error "Supplied value of scalar constant exceeds limits of destination type" := by
  unfold torchScalarToTosaTensor torchScalarToTosaTensorAux
  norm_num
  by_cases hv : intMinOfWidth 64 ≤ n ∧ n ≤ intMaxOfWidth 64
  · rw [if_pos hv, if_neg (by simp [(isInValidRange_int_iff _ _ _).mpr hv])]
  · rw [if_neg hv, if_pos (by
      rw [← Bool.not_eq_true]
      intro h
      exact hv ((isInValidRange_int_iff _ _ _).mp h))]

theorem torchScalarToTosaTensor_int_other {w : Nat} (h1 : w ≠ 32) (h2 : w ≠ 64)
    (s : TorchScalar) (hs : s ≠ .nonConst) :
    torchScalarToTosaTensor s (.int w) = .error "Unsupported integer type" := by
  rcases s with q | n | _
  · unfold torchScalarToTosaTensor torchScalarToTosaTensorAux
    dsimp only
    rw [if_pos ⟨h1, h2⟩]
  · unfold torchScalarToTosaTensor torchScalarToTosaTensorAux
    dsimp only
    rw [if_pos ⟨h1, h2⟩]
  · exact absurd rfl hs

/-- C3: lifting a compile-time scalar constant to a tensor of integer
destination type succeeds only for widths 32 and 64; a float constant
succeeds iff casting it to the destination width and back to double
reproduces it exactly, an integer constant succeeds iff it lies in the
destination's signed range, and on success the materialized constant always
equals the original value — the lift never silently truncates. -/
theorem liftScalarToTensor_range_spec :
    (∀ (w : Nat) (q : ℚ),
        ((∃ t, torchScalarToTosaTensor (.floatConst q) (.int w) = .ok t) ↔
          ((w = 32 ∨ w = 64) ∧
            doubleOfInt (castDoubleToInt (intMinOfWidth w) (intMaxOfWidth w) q) = q))) ∧
    (∀ (w : Nat) (n : Int),
        ((∃ t, torchScalarToTosaTensor (.intConst n) (.int w) = .ok t) ↔
          ((w = 32 ∨ w = 64) ∧ intMinOfWidth w ≤ n ∧ n ≤ intMaxOfWidth w))) ∧
    (∀ (w : Nat) (q : ℚ) (t : TosaConstTensor),
        torchScalarToTosaTensor (.floatConst q) (.int w) = .ok t →
          ∃ d : Int, (t = .int32T d ∨ t = .int64T d) ∧ doubleOfInt d = q) ∧
    (∀ (w : Nat) (n : Int) (t : TosaConstTensor),
        torchScalarToTosaTensor (.intConst n) (.int w) = .ok t →
          (t = .int32T n ∨ t = .int64T n)) := by
  have hw32 : ∀ w : Nat, w = 32 ∨ w = 64 ∨ (w ≠ 32 ∧ w ≠ 64) := by
    intro w
    by_cases h1 : w = 32
    · exact Or.inl h1
    · by_cases h2 : w = 64
      · exact Or.inr (Or.inl h2)
      · exact Or.inr (Or.inr ⟨h1, h2⟩)
  refine ⟨?_, ?_, ?_, ?_⟩
  · intro w q
    rcases hw32 w with rfl | rfl | ⟨h1, h2⟩
    · rw [torchScalarToTosaTensor_float_32]
      by_cases hv : doubleOfInt (castDoubleToInt (intMinOfWidth 32) (intMaxOfWidth 32) q) = q
      · rw [if_pos hv]
        exact ⟨fun _ => ⟨Or.inl rfl, hv⟩, fun _ => ⟨_, rfl⟩⟩
      · rw [if_neg hv]
        constructor
        · intro ⟨t, ht⟩
          simp at ht
        · intro ⟨_, hv2⟩
          exact absurd hv2 hv
    · rw [torchScalarToTosaTensor_float_64]
      by_cases hv : doubleOfInt (castDoubleToInt (intMinOfWidth 64) (intMaxOfWidth 64) q) = q
      · rw [if_pos hv]
        exact ⟨fun _ => ⟨Or.inr rfl, hv⟩, fun _ => ⟨_, rfl⟩⟩
      · rw [if_neg hv]
        constructor
        · intro ⟨t, ht⟩
          simp at ht
        · intro ⟨_, hv2⟩
          exact absurd hv2 hv
    · rw [torchScalarToTosaTensor_int_other h1 h2 _ (by simp)]
      constructor
      · intro ⟨t, ht⟩
        simp at ht
      · intro ⟨hw, _⟩
        omega
  · intro w n
    rcases hw32 w with rfl | rfl | ⟨h1, h2⟩
    · rw [torchScalarToTosaTensor_int_32]
      by_cases hv : intMinOfWidth 32 ≤ n ∧ n ≤ intMaxOfWidth 32
      · rw [if_pos hv]
        exact ⟨fun _ => ⟨Or.inl rfl, hv⟩, fun _ => ⟨_, rfl⟩⟩
      · rw [if_neg hv]
        constructor
        · intro ⟨t, ht⟩
          simp at ht
        · intro ⟨_, hv2⟩
          exact absurd hv2 hv
    · rw [torchScalarToTosaTensor_int_64]
      by_cases hv : intMinOfWidth 64 ≤ n ∧ n ≤ intMaxOfWidth 64
      · rw [if_pos hv]
        exact ⟨fun _ => ⟨Or.inr rfl, hv⟩, fun _ => ⟨_, rfl⟩⟩
      · rw [if_neg hv]
        constructor
        · intro ⟨t, ht⟩
          simp at ht
        · intro ⟨_, hv2⟩
          exact absurd hv2 hv
    · rw [torchScalarToTosaTensor_int_other h1 h2 _ (by simp)]
      constructor
      · intro ⟨t, ht⟩
        simp at ht
      · intro ⟨hw, _⟩
        omega
  · intro w q t ht
    rcases hw32 w with rfl | rfl | ⟨h1, h2⟩
    · rw [torchScalarToTosaTensor_float_32] at ht
      split at ht
      · rename_i hv
        rw [Except.ok.injEq] at ht
        exact ⟨_, Or.inl ht.symm, hv⟩
      · simp at ht
    · rw [torchScalarToTosaTensor_float_64] at ht
      split at ht
      · rename_i hv
        rw [Except.ok.injEq] at ht
        exact ⟨_, Or.inr ht.symm, hv⟩
      · simp at ht
    · rw [torchScalarToTosaTensor_int_other h1 h2 _ (by simp)] at ht
      simp at ht
  · intro w n t ht
    rcases hw32 w with rfl | rfl | ⟨h1, h2⟩
    · rw [torchScalarToTosaTensor_int_32] at ht
      split at ht
      · rw [Except.ok.injEq] at ht
        exact Or.inl ht.symm
      · simp at ht
    · rw [torchScalarToTosaTensor_int_64] at ht
      split at ht
      · rw [Except.ok.injEq] at ht
        exact Or.inr ht.symm
      · simp at ht
    · rw [torchScalarToTosaTensor_int_other h1 h2 _ (by simp)] at ht
      simp at ht

theorem reshape_auto_sz_eq_count (s : List Int) :
    (s.map (fun x => if x = -1 then (1 : Nat) else 0)).sum = s.count (-1) := by
  induction s with
  | nil => simp
  | cons a t ih =>
    simp only [List.map_cons, List.sum_cons, List.count_cons, ih]
    by_cases h : a = -1
    · simp [h]
      omega
    · simp [h]

/-- C7 counterexample: a constant view target shape with two `-1` entries is
accepted — the view legalizer performs no at-most-one `-1` check. -/
theorem view_two_infer_dims_succeeds :
    (([-1, -1] : List Int).count (-1) = 2) ∧
    convertAtenView true (.float 32) (some [-1, -1]) = .ok [-1, -1] := by
  exact ⟨by decide, rfl⟩

/-- C7 (amended): only the reshape legalizer enforces the "at most one `-1`"
rule on its constant target shape; the view legalizer only requires the
constant list (accepting any number of `-1` entries), and the flatten
legalizer has no target-shape list at all — it requires constant
`start_dim` / `end_dim` scalars instead. All three fail with a typed failure
when the required operand is not compile-time constant. -/
theorem reshape_view_flatten_shape_list_spec :
    (∀ s : List Int, 2 ≤ s.count (-1) →
        convertAtenReshape true (some s) =
          .error "At most one dimension may be specified as -1 to automatically calculate its size") ∧
    (∀ s : List Int, s.count (-1) ≤ 1 → convertAtenReshape true (some s) = .ok s) ∧
    (convertAtenReshape true none = .error "Only constant shape supported in TOSA Reshape") ∧
    (convertAtenView true (.float 32) none = .error "size must consist of Scalar constants") ∧
    (∀ (s : List Int) (ty : MlirType), ty.isIntOrFloat = true →
        convertAtenView true ty (some s) = .ok s) ∧
    (∀ (shape : List Int) (e : Option Int), shape.all (fun d => ¬ isDynamicDim d) →
        convertAtenFlatten (some shape) none e = .error "start_dim must be a Scalar constant") ∧
    (∀ (shape : List Int) (s : Int), shape.all (fun d => ¬ isDynamicDim d) →
        convertAtenFlatten (some shape) (some s) none =
          .error "end_dim must be a Scalar constant") := by
  refine ⟨?_, ?_, rfl, rfl, ?_, ?_, ?_⟩
  · intro s hs
    unfold convertAtenReshape
    rw [if_neg (by simp)]
    dsimp only
    rw [if_pos (by rw [reshape_auto_sz_eq_count]; omega)]
  · intro s hs
    unfold convertAtenReshape
    rw [if_neg (by simp)]
    dsimp only
    rw [if_neg (by rw [reshape_auto_sz_eq_count]; omega)]
  · intro s ty hty
    unfold convertAtenView
    rw [if_neg (by simp), if_neg (by simp [hty])]
  · intro shape e hstat
    unfold convertAtenFlatten
    dsimp only
    rw [if_neg (not_not_intro hstat)]
  · intro shape s hstat
    unfold convertAtenFlatten
    dsimp only
    rw [if_neg (not_not_intro hstat)]

/-- C8 counterexample: a zero-ranked static input broadcast to the constant
rank-1 shape `[2]` is a rank-changing broadcast, yet the legalization
succeeds (aliasing the result to the input). -/
theorem broadcastTo_rank_changing_zero_rank_succeeds :
    (([] : List Int).length ≠ ([2] : List Int).length) ∧
    convertAtenBroadcastTo (some []) (.float 32) (some [2]) false = .ok ⟨true, []⟩ := by
  exact ⟨by decide, rfl⟩

/-- C8 (amended): broadcast-to succeeds only for a statically shaped
int-or-float input with a constant size list whose rank equals the input
rank or with a zero-ranked input; when the requested shape differs from the
input shape it additionally fails if any consumer is view-like; every
rank-changing broadcast from an input of nonzero rank fails; and on success
no target node is emitted — the result is aliased to the input Value and the
op erased. -/
theorem broadcastTo_amended_spec :
    (∀ (selfTy : Option (List Int)) (elemTy : MlirType) (sizeConst : Option (List Int))
        (hasView : Bool) (r : BroadcastToResult),
      convertAtenBroadcastTo selfTy elemTy sizeConst hasView = .ok r →
        ∃ ishape oshape, selfTy = some ishape ∧ sizeConst = some oshape ∧
          ishape.all (fun d => ¬ isDynamicDim d) = true ∧
          elemTy.isIntOrFloat = true ∧
          (ishape.length = oshape.length ∨ ishape.length = 0) ∧
          (ishape = oshape ∨ hasView = false) ∧
          r = ⟨true, []⟩) ∧
    (∀ (ishape oshape : List Int) (elemTy : MlirType) (hasView : Bool),
        ishape.length ≠ oshape.length → ishape.length ≠ 0 →
        ∃ msg, convertAtenBroadcastTo (some ishape) elemTy (some oshape) hasView
          = .error msg) := by
  constructor
  · intro selfTy elemTy sizeConst hasView r h
    rcases selfTy with _ | ishape
    · simp [convertAtenBroadcastTo] at h
    · unfold convertAtenBroadcastTo at h
      dsimp only at h
      by_cases hstat : ishape.all (fun d => ¬ isDynamicDim d) = true
      · rw [if_neg (not_not_intro hstat)] at h
        by_cases helem : elemTy.isIntOrFloat = true
        · rw [if_neg (not_not_intro helem)] at h
          rcases sizeConst with _ | oshape
          · simp at h
          · dsimp only at h
            by_cases hrank : ishape.length = oshape.length ∨ ishape.length = 0
            · rw [if_pos hrank] at h
              by_cases hne : ishape ≠ oshape ∧ hasView = true
              · rw [if_pos hne] at h
                simp at h
              · rw [if_neg hne] at h
                rw [Except.ok.injEq] at h
                refine ⟨ishape, oshape, rfl, rfl, hstat, helem, hrank, ?_, h.symm⟩
                by_cases heq : ishape = oshape
                · exact Or.inl heq
                · right
                  rcases Decidable.not_and_iff_or_not.mp hne with h1 | h2
                  · exact absurd heq (by simpa using h1)
                  · simpa using h2
            · rw [if_neg hrank] at h
              simp at h
        · rw [if_pos helem] at h
          simp at h
      · rw [if_pos hstat] at h
        simp at h
  · intro ishape oshape elemTy hasView hne h0
    unfold convertAtenBroadcastTo
    dsimp only
    by_cases hstat : ishape.all (fun d => ¬ isDynamicDim d) = true
    · rw [if_neg (not_not_intro hstat)]
      by_cases helem : elemTy.isIntOrFloat = true
      · rw [if_neg (not_not_intro helem)]
        rw [if_neg (by
          push_neg
          exact ⟨hne, h0⟩)]
        exact ⟨_, rfl⟩
      · rw [if_pos helem]
        exact ⟨_, rfl⟩
    · rw [if_pos hstat]
      exact ⟨_, rfl⟩

/-- C10: the embedding legalizer accepts only integer index tensors of rank
exactly 2 and weight tensors of rank exactly 2 (any other rank fails with a
typed failure), even though the emitted gather-based subgraph flattens the
indices to a `1 × N` tensor and is not otherwise rank-specific. -/
theorem embedding_requires_rank2_spec :
    (∀ (a : EmbeddingArgs) (e : EmbeddingEmission),
        convertAtenEmbedding a = .ok e →
          ∃ ishape ielem, a.indicesTy = some (ishape, ielem) ∧
            (∃ w, ielem = MlirType.int w) ∧ ishape.length = 2 ∧
            a.weightShape.length = 2 ∧
            e.reshapedIndicesShape =
              [1, if ishape.all (fun d => ¬ isDynamicDim d) then
                    ishape.foldl (· * ·) 1 else kUnknownSize]) ∧
    (∀ a : EmbeddingArgs,
        (∀ ishape ielem, a.indicesTy = some (ishape, ielem) → ishape.length ≠ 2) →
        ∃ msg, convertAtenEmbedding a = .error msg) ∧
    (∀ a : EmbeddingArgs, a.weightShape.length ≠ 2 →
        ∃ msg, convertAtenEmbedding a = .error msg) := by
  refine ⟨?_, ?_, ?_⟩
  · intro a e h
    unfold convertAtenEmbedding at h
    rcases hidx : a.indicesTy with _ | ⟨ishape, ielem⟩
    · rw [hidx] at h
      simp at h
    · rw [hidx] at h
      rcases ielem with w | w | _
      · dsimp only at h
        rw [if_pos rfl] at h
        simp at h
      · dsimp only at h
        rw [if_neg (by simp)] at h
        by_cases hr2 : ishape.length ≠ 2
        · rw [if_pos hr2] at h
          simp at h
        · rw [if_neg hr2] at h
          by_cases hw2 : a.weightShape.length ≠ 2
          · rw [if_pos hw2] at h
            simp at h
          · rw [if_neg hw2] at h
            rcases hp : a.paddingIdx with _ | p <;> rw [hp] at h
            · simp at h
            · rcases hsg : a.scaleGradByFreq with _ | sg <;> rw [hsg] at h
              · simp at h
              · rcases sg
                · rcases hsp : a.sparse with _ | sp <;> rw [hsp] at h
                  · simp at h
                  · rcases sp
                    · dsimp only at h
                      rw [Except.ok.injEq] at h
                      refine ⟨ishape, .int w, rfl, ⟨w, rfl⟩, by omega, by omega, ?_⟩
                      rw [← h]
                    · simp at h
                · simp at h
      · dsimp only at h
        rw [if_pos rfl] at h
        simp at h
  · intro a hrank
    unfold convertAtenEmbedding
    rcases hidx : a.indicesTy with _ | ⟨ishape, ielem⟩
    · exact ⟨_, rfl⟩
    · rcases ielem with w | w | _
      · dsimp only
        rw [if_pos rfl]
        exact ⟨_, rfl⟩
      · dsimp only
        rw [if_neg (by simp), if_pos (hrank ishape (.int w) hidx)]
        exact ⟨_, rfl⟩
      · dsimp only
        rw [if_pos rfl]
        exact ⟨_, rfl⟩
  · intro a hw
    unfold convertAtenEmbedding
    rcases hidx : a.indicesTy with _ | ⟨ishape, ielem⟩
    · exact ⟨_, rfl⟩
    · rcases ielem with w | w | _
      · dsimp only
        rw [if_pos rfl]
        exact ⟨_, rfl⟩
      · dsimp only
        rw [if_neg (by simp)]
        by_cases hr2 : ishape.length ≠ 2
        · rw [if_pos hr2]
          exact ⟨_, rfl⟩
        · rw [if_neg hr2, if_pos hw]
          exact ⟨_, rfl⟩
      · dsimp only
        rw [if_pos rfl]
        exact ⟨_, rfl⟩

/-! ## Witnesses -/

/-- Witness for C1 at the spec's own example `A: [3,1,5,6]`, `B: [1,4,6,7]`. -/
theorem matmul_output_shape_law_witness :
    (performMatmulShapes [3, 1, 5, 6] [1, 4, 6, 7]).outputShape
      = specMatmulOutputShape [3, 1, 5, 6] [1, 4, 6, 7] :=
  matmul_output_shape_law [3, 1, 5, 6] [1, 4, 6, 7] (by decide) (by decide)
    (by decide) (by decide)
    (by unfold leadingDimsCompatible; dsimp only; decide)

/-- Witness for C3: lifting the integer constant 5 to i32 preserves it. -/
theorem liftScalarToTensor_range_spec_witness :
    TosaConstTensor.int32T 5 = .int32T 5 ∨ TosaConstTensor.int32T 5 = .int64T 5 :=
  liftScalarToTensor_range_spec.2.2.2 32 5 (.int32T 5) rfl

/-- Witness for C4: squeezing dim 1 of `[2, 1, 3]` erases the static 1. -/
theorem squeeze_removes_exactly_static_ones_witness :
    generateSqueezedShapeOneDim [2, 1, 3] (some ((1 : Nat) : Int))
      = .ok (if ([2, 1, 3] : List Int).getD 1 0 = 1
             then ([2, 1, 3] : List Int).eraseIdx 1 else [2, 1, 3]) :=
  squeeze_removes_exactly_static_ones.1 [2, 1, 3] 1 (by decide)

/-- Witness for C5 at the rank-2 input `[2, 3]`. -/
theorem argmax_all_dims_chain_witness :
    (([EmittedOp.tosaArgMax [2, 3] 0 [3], .tosaArgMax [3] 0 [],
        .arithExtSI [] 64].filter (fun op => match op with
          | .tosaArgMax _ _ _ => true | _ => false)).length
        = ([2, 3] : List Int).length) ∧
    (∀ op ∈ ([EmittedOp.tosaArgMax [2, 3] 0 [3], .tosaArgMax [3] 0 [],
        .arithExtSI [] 64] : List EmittedOp),
      (match op with | EmittedOp.tosaCast _ => false | _ => true) = true) ∧
    ([EmittedOp.tosaArgMax [2, 3] 0 [3], .tosaArgMax [3] 0 [],
        .arithExtSI [] 64] : List EmittedOp).getLast? = some (.arithExtSI [] 64) :=
  (argmax_all_dims_chain [2, 3] false).2
    [.tosaArgMax [2, 3] 0 [3], .tosaArgMax [3] 0 [], .arithExtSI [] 64] [] rfl

/-- Witness for C6 at an i64 add with tensor rhs and alpha 1. -/
theorem addsub_integer_scaling_spec_witness :
    (∀ w, MlirType.int 64 = MlirType.int w →
        (⟨.int 32, .int 32, some (.int 64)⟩ : AddSubEmission).mulElemTy = .int 32) ∧
    (MlirType.int 64 = MlirType.int 64 →
        (⟨.int 32, .int 32, some (.int 64)⟩ : AddSubEmission).opElemTy = .int 32 ∧
        (⟨.int 32, .int 32, some (.int 64)⟩ : AddSubEmission).finalCastTo = some (.int 64)) ∧
    (∀ w, MlirType.int 64 = MlirType.float w →
        (⟨.int 32, .int 32, some (.int 64)⟩ : AddSubEmission).mulElemTy = .float w ∧
        (⟨.int 32, .int 32, some (.int 64)⟩ : AddSubEmission).opElemTy = .float w ∧
        (⟨.int 32, .int 32, some (.int 64)⟩ : AddSubEmission).finalCastTo = none) :=
  addsub_integer_scaling_spec (some (.int 64)) (.tensor (.int 64)) (.intConst 1)
    (.int 64) ⟨.int 32, .int 32, some (.int 64)⟩ rfl

/-- Witness for the amended C7: a reshape target with two -1 entries fails. -/
theorem reshape_view_flatten_shape_list_spec_witness :
    convertAtenReshape true (some [-1, -1]) =
      .error "At most one dimension may be specified as -1 to automatically calculate its size" :=
  reshape_view_flatten_shape_list_spec.1 [-1, -1] (by decide)

/-- Witness for the amended C8: a rank-2 to rank-1 broadcast fails. -/
theorem broadcastTo_amended_spec_witness :
    ∃ msg, convertAtenBroadcastTo (some [2, 3]) (.float 32) (some [2]) false
      = .error msg :=
  broadcastTo_amended_spec.2 [2, 3] [2] (.float 32) false (by decide) (by decide)

/-- Witness for C10: a rank-3 weight is rejected. -/
theorem embedding_requires_rank2_spec_witness :
    ∃ msg, convertAtenEmbedding
        ⟨some ([1, 2], .int 64), [5, 8, 9], [1, 2, 8], some 0, some false, some false⟩
      = .error msg :=
  embedding_requires_rank2_spec.2.2
    ⟨some ([1, 2], .int 64), [5, 8, 9], [1, 2, 8], some 0, some false, some false⟩
    (by decide)
